import Mathlib

/-!
Verification of the debiasing core of the ibicus package (CDFt, QuantileDeltaMapping,
ISIMIP) against its natural-language specification.

The Python sources under src/PACKAGE_NAME/debias/ are shallowly embedded here:
real-valued samples become rationals (ℚ), numpy arrays become lists, numpy's
process-global random state becomes an explicit stream of unit draws (ℕ → ℚ),
fallible code returns Except/Option, and the ±infinity sentinels used for
unconfigured bounds/thresholds become Option ℚ.  Functions of the package's
utils module (ecdf, iecdf, running windows, ...) are not part of the given
sources; where needed they are modelled from the specification text and say so
in their doc comment.
-/

set_option linter.unusedVariables false

/-- Python 3 `round`: round half to even (both plain `round` and numpy rounding
behave this way), returning an integer. -/
def pyRound (q : ℚ) : ℤ :=
  let f : ℤ := ⌊q⌋
  let r : ℚ := q - f
  if r < 1/2 then f
  else if 1/2 < r then f + 1
  else if f % 2 = 0 then f else f + 1

/-- numpy `np.isclose` with its default tolerances rtol = 1e-5, atol = 1e-8:
`|a - b| <= atol + rtol * |b|`. -/
def npIsClose (a b : ℚ) : Bool :=
  decide (|a - b| ≤ 1/100000000 + (1/100000) * |b|)

/-- Mean of a list of rationals (`np.mean`); the empty list gives 0/0 = 0 in ℚ
where numpy would give NaN, a case none of the verified claims exercises. -/
def meanQ (l : List ℚ) : ℚ := l.sum / l.length

/-- Ascending stable sort, the embedding of `np.sort`. -/
def sortQ (l : List ℚ) : List ℚ := List.insertionSort (· ≤ ·) l

/-- Sorted order of the indices 0..n-1 by a key, ties broken by index
(a stable `np.argsort`). -/
def argsortBy (key : ℕ → ℚ) (n : ℕ) : List ℕ :=
  List.insertionSort (fun i j => key i < key j ∨ (key i = key j ∧ i ≤ j)) (List.range n)

/-- `np.argsort` of a list of rationals. -/
def argsortQ (l : List ℚ) : List ℕ := argsortBy (fun i => l.getD i 0) l.length

/-- `np.argsort` of a list of naturals (used to invert an argsort permutation). -/
def argsortN (l : List ℕ) : List ℕ := argsortBy (fun i => ((l.getD i 0 : ℕ) : ℚ)) l.length

/-- Rank of each element of `l` among the sorted order: `np.argsort(np.argsort(l))`. -/
def rankList (l : List ℚ) : List ℕ := argsortN (argsortQ l)

/-- An infinite random stream shifted past its first `n` draws: models the fact
that successive calls into numpy's generator consume successive draws. -/
def shiftStream (u : ℕ → ℚ) (n : ℕ) : ℕ → ℚ := fun i => u (i + n)

/-- A draw of `np.random.uniform(low, high)` realised from a unit draw. -/
def uniformDraw (low high unit : ℚ) : ℚ := low + (high - low) * unit

/-- Minimum of the strictly positive entries of a list if any exist
(`x[x > 0].min()`); `none` models numpy's exception on an empty selection. -/
def minPos (l : List ℚ) : Option ℚ :=
  match l.filter (fun v => 0 < v) with
  | [] => none
  | a :: t => some (t.foldl min a)

/-- Replace the first `k` entries of a list by `v` (a numpy prefix-mask
assignment `x[0:k] = v`). -/
def setFirstTo (k : ℕ) (v : ℚ) (l : List ℚ) : List ℚ :=
  match k, l with
  | 0, l => l
  | _, [] => []
  | k' + 1, x :: xs => v :: setFirstTo k' v xs

/-- Replace the last `k` entries of a list by `v` (a numpy suffix-mask
assignment `x[n - k:] = v`). -/
def setLastTo (k : ℕ) (v : ℚ) (l : List ℚ) : List ℚ :=
  (setFirstTo k v l.reverse).reverse

/-- Overwrite the slice of `l` starting at `i` with `repl`
(`l[i : i + len(repl)] = repl`). -/
def setSlice (l : List ℚ) (i : ℕ) (repl : List ℚ) : List ℚ :=
  l.take i ++ repl ++ l.drop (i + repl.length)

/-- Truncate or pad `repl` so it has exactly the length of `orig`, padding with
the corresponding entries of `orig`.  numpy would raise on a length mismatch;
every verified claim only meets the equal-length case. -/
def fitLen (orig repl : List ℚ) : List ℚ :=
  repl.take orig.length ++ orig.drop repl.length

/-- Synthesized daily time stamps.  Modelled from the spec: when time arrays
are omitted they are created one per sample ("assuming the first sample falls
on January 1 and advancing one day per sample"); only their sizes matter to the
claims verified here, so stamps are abstract integers. -/
def inferTimes (n : ℕ) : List ℤ := (List.range n).map Int.ofNat

/-- Empirical CDF at one query point.  Modelled from the spec: the
`linear_interpolation` ecdf method is "piecewise-linear between order
statistics and plotting positions i/(n-1), extrapolated flat at 0/1 beyond
range".  `posInSorted` walks the sorted sample and returns the fractional
number of order statistics lying at or below the query. -/
def posInSorted : List ℚ → ℚ → ℚ
  | a :: b :: rest, q => if q < b then (q - a) / (b - a) else 1 + posInSorted (b :: rest) q
  | _, _ => 0

/-- Empirical CDF value of sorted sample `s` at `q` (linear-interpolation
method, modelled from the spec as described at `posInSorted`). -/
def ecdfLinAt (s : List ℚ) (q : ℚ) : ℚ :=
  match s with
  | [] => 0
  | [a] => if q < a then 0 else 1
  | a :: rest => if q ≤ a then 0 else posInSorted (a :: rest) q / ((a :: rest).length - 1)

/-- Modelled from the spec: `ecdf(x, y, "linear_interpolation")`, the default
ecdf method of CDFt — evaluates the empirical CDF fit on `x` at the query
points `y` (the utils module holding `ecdf` is not among the given sources). -/
def ecdf_linear_interpolation (x y : List ℚ) : List ℚ :=
  y.map (ecdfLinAt (sortQ x))

/-- Empirical quantile of the sorted sample `s` at probability `q`, `"linear"`
method: `h = q * (n - 1)`, interpolate between order statistics `floor h` and
`floor h + 1`. -/
def iecdfLinAt (s : List ℚ) (q : ℚ) : ℚ :=
  match s with
  | [] => 0
  | s =>
    let n := s.length
    let h := q * ((n : ℚ) - 1)
    let k := (⌊h⌋).toNat
    if k + 1 < n then s.getD k 0 + (h - k) * (s.getD (k + 1) 0 - s.getD k 0)
    else s.getD (n - 1) 0

/-- Modelled from the spec: `iecdf(x, p, "linear")`, the default iecdf method
of CDFt — the standard type-7 ("linear") quantile estimator on the order
statistics of `x` (the utils module holding `iecdf` is not among the given
sources). -/
def iecdf_linear (x p : List ℚ) : List ℚ :=
  p.map (iecdfLinAt (sortQ x))

/-- Modelled from the spec: `threshold_cdf_vals(p, cdf_threshold)` "clamps
probabilities into [cdf_threshold, 1 - cdf_threshold]" (utils module, not among
the given sources). -/
def threshold_cdf_vals (cdfThreshold : ℚ) (p : ℚ) : ℚ :=
  max cdfThreshold (min (1 - cdfThreshold) p)

/-! ## CDFt (src/PACKAGE_NAME/debias/_cdft.py)

The delta shift, QQ-mapping, SSR steps and the per-chunk driver are embedded
from `_cdft.py`.  The configured ecdf/iecdf methods are the class defaults
(`"linear_interpolation"` / `"linear"`), which are the ones every claim below
uses; they are the spec-modelled `ecdf_linear_interpolation`/`iecdf_linear`. -/

/-- `CDFt._apply_CDFt_mapping`: optional additive/multiplicative delta shift of
`cm_hist` and `cm_future`, then the QQ-map
`iecdf(cm_future, ecdf(cm_hist, iecdf(obs, ecdf(cm_future, cm_future))))`.
An unknown `delta_shift` raises a ValueError, embedded as `Except.error`. -/
def apply_CDFt_mapping (delta_shift : String) (obs cm_hist cm_future : List ℚ) :
    Except String (List ℚ) := do
  let (cm_hist, cm_future) ←
    if delta_shift = "additive" then
      let shift := meanQ obs - meanQ cm_hist
      pure (cm_hist.map (· + shift), cm_future.map (· + shift))
    else if delta_shift = "multiplicative" then
      let shift := meanQ obs / meanQ cm_hist
      pure (cm_hist.map (· * shift), cm_future.map (· * shift))
    else if delta_shift = "no_shift" then
      pure (cm_hist, cm_future)
    else
      Except.error "ValueError: delta_shift needs to be additive, multiplicative or no_shift"
  pure (iecdf_linear cm_future
    (ecdf_linear_interpolation cm_hist
      (iecdf_linear obs (ecdf_linear_interpolation cm_future cm_future))))

/-- `CDFt._get_threshold`: minimum over the strictly positive values of all
three series; `none` models the numpy exception raised when one of the three
positive selections is empty. -/
def get_threshold (obs cm_hist cm_future : List ℚ) : Option ℚ := do
  let a ← minPos obs
  let b ← minPos cm_hist
  let c ← minPos cm_future
  pure (min (min a b) c)

/-- `CDFt._randomize_zero_values_between_zero_and_threshold`:
`np.where(x == 0, np.random.uniform(0, threshold, size=x.size), x)` — one draw
is consumed per array position, used only where the value is zero. -/
def randomize_zero_values_between_zero_and_threshold (x : List ℚ) (threshold : ℚ)
    (u : ℕ → ℚ) : List ℚ :=
  (List.range x.length).map
    (fun i => if x.getD i 0 = 0 then uniformDraw 0 threshold (u i) else x.getD i 0)

/-- `CDFt._set_values_below_threshold_to_zero`. -/
def set_values_below_threshold_to_zero (x : List ℚ) (threshold : ℚ) : List ℚ :=
  x.map (fun v => if v < threshold then 0 else v)

/-- `CDFt._apply_SSR_steps_before_adjustment`: compute the SSR threshold, then
randomize the zeros of the three series; the three `np.random.uniform` calls
consume `obs.length`, `cm_hist.length` and `cm_future.length` draws of the
global stream in that order. -/
def apply_SSR_steps_before_adjustment (obs cm_hist cm_future : List ℚ) (u : ℕ → ℚ) :
    Option (List ℚ × List ℚ × List ℚ × ℚ) := do
  let threshold ← get_threshold obs cm_hist cm_future
  let obs' := randomize_zero_values_between_zero_and_threshold obs threshold u
  let cm_hist' := randomize_zero_values_between_zero_and_threshold cm_hist threshold
    (shiftStream u obs.length)
  let cm_future' := randomize_zero_values_between_zero_and_threshold cm_future threshold
    (shiftStream u (obs.length + cm_hist.length))
  pure (obs', cm_hist', cm_future', threshold)

/-- `CDFt._apply_on_month_and_window`: SSR pre-step (if `SSR`), the CDFt
QQ-mapping, SSR post-step (if `SSR`).  The error cases are the numpy exception
of an empty positive selection in `_get_threshold` and the ValueError of an
unknown `delta_shift`. -/
def apply_on_month_and_window (SSR : Bool) (delta_shift : String) (u : ℕ → ℚ)
    (obs cm_hist cm_future : List ℚ) : Except String (List ℚ) := do
  if SSR then
    match apply_SSR_steps_before_adjustment obs cm_hist cm_future u with
    | none => Except.error "numpy error: zero-size array to reduction operation minimum"
    | some (obs', cm_hist', cm_future', threshold) => do
      let mapped ← apply_CDFt_mapping delta_shift obs' cm_hist' cm_future'
      pure (set_values_below_threshold_to_zero mapped threshold)
  else
    apply_CDFt_mapping delta_shift obs cm_hist cm_future

/-- `CDFt.apply_location`.  Time arrays are abstract stamps (only their sizes
reach the validation under scrutiny); absent ones are synthesized by
`inferTimes`.  The `running_window_mode` and `apply_by_month` branches delegate
to calendar-chunking machinery living in the absent utils module; they are
taken as parameters here (the running-window target chunking itself is
spec-modelled and verified separately below), while the plain path runs the
embedded `apply_on_month_and_window`. -/
def cdftApplyLocation (SSR : Bool) (delta_shift : String)
    (apply_by_month running_window_mode : Bool) (u : ℕ → ℚ)
    (windowBranch monthBranch : Unit → Except String (List ℚ))
    (obs cm_hist cm_future : List ℚ)
    (time_obs time_cm_hist time_cm_future : Option (List ℤ)) :
    Except String (List ℚ) :=
  let t_obs := time_obs.getD (inferTimes obs.length)
  let t_cm_hist := time_cm_hist.getD (inferTimes cm_hist.length)
  let t_cm_future := time_cm_future.getD (inferTimes cm_future.length)
  if obs.length ≠ t_obs.length ∨ cm_hist.length ≠ t_cm_hist.length ∨
      cm_future.length ≠ t_cm_future.length then
    Except.error "ValueError: dimensions of time information do not correspond"
  else if running_window_mode then
    windowBranch ()
  else if apply_by_month then
    monthBranch ()
  else
    apply_on_month_and_window SSR delta_shift u obs cm_hist cm_future

/-! ## ISIMIP (src/PACKAGE_NAME/debias/_isimip.py)

Bounds and thresholds: the Python class stores unconfigured sides as infinities
(`has_lower_threshold` is `lower_threshold > -inf`, `has_upper_threshold` is
`upper_threshold < inf`); here a configured side is `some t` and an
unconfigured one is `none`, and the sentinel comparisons `x <= -inf` /
`x >= inf` become `False` accordingly. -/

/-- `ISIMIP._get_mask_for_values_beyond_lower_threshold`: `x <= lower_threshold`
(`False` when no lower threshold is configured, as `x <= -inf` is). -/
def beyond_lower_threshold (lower_threshold : Option ℚ) (x : ℚ) : Bool :=
  match lower_threshold with
  | some t => decide (x ≤ t)
  | none => false

/-- `ISIMIP._get_mask_for_values_beyond_upper_threshold`: `x >= upper_threshold`
(`False` when no upper threshold is configured, as `x >= inf` is). -/
def beyond_upper_threshold (upper_threshold : Option ℚ) (x : ℚ) : Bool :=
  match upper_threshold with
  | some t => decide (t ≤ x)
  | none => false

/-- `ISIMIP._get_mask_for_values_between_thresholds`:
`(x > lower_threshold) & (x < upper_threshold)`, with an unconfigured side
(`-inf` / `inf` in Python) imposing no constraint. -/
def between_thresholds (lower_threshold upper_threshold : Option ℚ) (x : ℚ) : Bool :=
  (match lower_threshold with | some t => decide (t < x) | none => true) &&
  (match upper_threshold with | some t => decide (x < t) | none => true)

/-- `ISIMIP._get_values_between_thresholds`. -/
def values_between_thresholds (lower_threshold upper_threshold : Option ℚ) (x : List ℚ) :
    List ℚ :=
  x.filter (between_thresholds lower_threshold upper_threshold)

/-- Modelled from the spec and the step3 docstring:
`get_years_and_yearly_means(x, years)` (utils module, not among the given
sources) returns the distinct years in ascending order (`np.unique`) and the
mean of the samples of each year. -/
def get_years_and_yearly_means (x : List ℚ) (years : List ℤ) : List ℤ × List ℚ :=
  let unique_years := years.dedup.mergeSort (fun a b => decide (a ≤ b))
  (unique_years,
   unique_years.map (fun y =>
     meanQ ((x.zip years).filterMap (fun p => if p.2 = y then some p.1 else none))))

/-- Least-squares slope of `scipy.stats.linregress(t, y)`:
`sum((t - mean t) * (y - mean y)) / sum((t - mean t)^2)`; `linregress` itself
is external library code, its p-value involves the t-distribution and is kept
abstract (a parameter of `step3_remove_trend`). -/
def linregressSlope (t : List ℚ) (y : List ℚ) : ℚ :=
  let tm := meanQ t
  let ym := meanQ y
  ((t.zip y).map (fun p => (p.1 - tm) * (p.2 - ym))).sum / (t.map (fun a => (a - tm) ^ 2)).sum

/-- `ISIMIP._step3_remove_trend`: regress the annual means against the years;
the annual trend is `slope * (unique_years - mean unique_years)` when
`regression.pvalue < 0.05 and self.trend_removal_with_significance_test`, and
all zeros otherwise; the trend is mapped onto sample resolution via each
sample's year and subtracted.  `pvalue` is the regression p-value (external
scipy computation, abstract here).  Returns the detrended series and the
per-sample trend. -/
def step3_remove_trend (trend_removal_with_significance_test : Bool) (pvalue : ℚ)
    (x : List ℚ) (years : List ℤ) : List ℚ × List ℚ :=
  let uy_means := get_years_and_yearly_means x years
  let unique_years := uy_means.1
  let annual_means := uy_means.2
  let slope := linregressSlope (unique_years.map (fun y => (y : ℚ))) annual_means
  let annual_trend : ℤ → ℚ :=
    if pvalue < 1/20 ∧ trend_removal_with_significance_test then
      fun y => slope * ((y : ℚ) - meanQ (unique_years.map (fun z => (z : ℚ))))
    else
      fun _ => 0
  let trend := years.map annual_trend
  ((x.zip trend).map (fun p => p.1 - p.2), trend)

/-- The day-resolution trend subtracted by `step3_remove_trend` for year `y`:
exposed for stating the detrending claims. -/
def step3_annual_trend (trend_removal_with_significance_test : Bool) (pvalue : ℚ)
    (x : List ℚ) (years : List ℤ) (y : ℤ) : ℚ :=
  let uy_means := get_years_and_yearly_means x years
  let unique_years := uy_means.1
  if pvalue < 1/20 ∧ trend_removal_with_significance_test then
    linregressSlope (unique_years.map (fun z => (z : ℚ))) uy_means.2 *
      ((y : ℚ) - meanQ (unique_years.map (fun z => (z : ℚ))))
  else 0

/-- Modelled from the spec (stage 4: values are "re-sorted to preserve their
original relative rank among themselves"): `sort_array_like_another_one(x, like)`
(utils module, not among the given sources) arranges the sorted values `x` in
the rank order of `like`. -/
def sort_array_like_another_one (x like : List ℚ) : List ℚ :=
  (rankList like).map (fun r => x.getD r 0)

/-- Scatter `repl` into the positions of `l` where `mask` holds
(`l[mask] = repl`), consuming `repl` left to right. -/
def maskScatter : List ℚ → List Bool → List ℚ → List ℚ
  | [], _, _ => []
  | l, [], _ => l
  | x :: xs, b :: bs, repl =>
    if b then
      match repl with
      | [] => x :: maskScatter xs bs []
      | r :: rs => r :: maskScatter xs bs rs
    else x :: maskScatter xs bs repl

/-- `ISIMIP._step4_randomize_values_between_lower_threshold_and_bound`: the
values at or beyond the lower threshold are replaced by sorted uniform draws
from `[lower_bound, lower_threshold)`, arranged in the original relative rank
order of the replaced values; `np.random.uniform` consumes one draw of the
global stream per replaced value. -/
def step4_randomize_values_between_lower_threshold_and_bound
    (lower_bound lower_threshold : ℚ) (vals : List ℚ) (u : ℕ → ℚ) : List ℚ :=
  let mask := vals.map (fun v => beyond_lower_threshold (some lower_threshold) v)
  let k := mask.count true
  let draws := sortQ ((List.range k).map (fun i => uniformDraw lower_bound lower_threshold (u i)))
  maskScatter vals mask
    (sort_array_like_another_one draws (vals.filter (beyond_lower_threshold (some lower_threshold))))

/-- Piecewise-linear interpolation through the points `(xs i, ys i)` with
linear extrapolation beyond the ends
(`scipy.interpolate.interp1d(xs, ys, fill_value="extrapolate")`; external
library code, embedded by its standard meaning).  `xs` is assumed strictly
increasing, which holds at its use site (indices of valid values). -/
def linInterpAt : List ℚ → List ℚ → ℚ → ℚ
  | x1 :: x2 :: xs, y1 :: y2 :: ys, q =>
    if q < x2 ∨ xs = [] then y1 + (q - x1) * (y2 - y1) / (x2 - x1)
    else linInterpAt (x2 :: xs) (y2 :: ys) q
  | [x1], [y1], _ => y1
  | _, _, _ => 0

/-- `ISIMIP._step2_impute_values`.  Invalid samples (NaN/inf, embedded as
`none`) are sampled from the iecdf of the valid values (one `np.random.random`
draw per invalid position, the configured `iecdf_method` being the ISIMIP
default setting `"linear"`), and the sorted samples are reinserted at rank
positions interpolated from the positions of the invalid indices among the
valid ones.  An all-invalid chunk raises a ValueError. -/
def step2_impute_values (x : List (Option ℚ)) (u : ℕ → ℚ) : Except String (List ℚ) :=
  let n := x.length
  let valid_values := x.filterMap id
  let indices_valid := (List.range n).filter (fun i => (x.getD i none).isSome)
  let indices_invalid := (List.range n).filter (fun i => (x.getD i none).isNone)
  if valid_values.length = 0 then
    Except.error "ValueError: Step2: Imputation not possible because all values are invalid"
  else if valid_values.length = 1 then
    Except.ok (x.map (fun v => v.getD (valid_values.getD 0 0)))
  else
    let sampled_values := iecdf_linear valid_values
      ((List.range indices_invalid.length).map u)
    let backsort_sorted_valid_values := rankList valid_values
    let interp := linInterpAt (indices_valid.map (fun i => (i : ℚ)))
      (backsort_sorted_valid_values.map (fun r => (r : ℚ)))
    let backsort_invalid_values := rankList (indices_invalid.map (fun i => interp (i : ℚ)))
    let inserted := backsort_invalid_values.map (fun r => (sortQ sampled_values).getD r 0)
    Except.ok (maskScatter (x.map (fun v => v.getD 0))
      (x.map (fun v => v.isNone)) inserted)

/-- `ISIMIP._step6_calculate_percent_values_beyond_threshold`: fraction of the
mask that is set (`mask.sum() / mask.size`). -/
def step6_calculate_percent_values_beyond_threshold (mask : List Bool) : ℚ :=
  (mask.count true : ℚ) / mask.length

/-- `ISIMIP._step6_get_P_obs_future`: the closed-form frequency-adjustment
formula blending the three exceedance frequencies, with `np.isclose` deciding
the continuity-corrected equal case. -/
def step6_get_P_obs_future (P_obs_hist P_cm_hist P_cm_future : ℚ) : ℚ :=
  if npIsClose P_cm_hist P_obs_hist then P_cm_future
  else if P_cm_future ≤ P_cm_hist ∧ P_obs_hist < P_cm_hist then
    P_obs_hist * P_cm_future / P_cm_hist
  else if P_cm_hist ≤ P_cm_future ∧ P_cm_hist < P_obs_hist then
    1 - (1 - P_obs_hist) * (1 - P_cm_future) / (1 - P_cm_hist)
  else P_obs_hist + P_cm_future - P_cm_hist

/-- `ISIMIP._step6_get_nr_of_entries_to_set_to_bound`: number of sorted
`cm_future` entries to force to the bound, `round(size * P_obs_future)` with
`P_obs_future` frequency-adjusted if configured. -/
def step6_get_nr_of_entries_to_set_to_bound
    (adjust_frequencies_of_values_beyond_thresholds : Bool)
    (mask_obs_hist mask_cm_hist mask_cm_future : List Bool) : ℤ :=
  let P_obs_future :=
    if adjust_frequencies_of_values_beyond_thresholds then
      step6_get_P_obs_future
        (step6_calculate_percent_values_beyond_threshold mask_obs_hist)
        (step6_calculate_percent_values_beyond_threshold mask_cm_hist)
        (step6_calculate_percent_values_beyond_threshold mask_cm_future)
    else
      step6_calculate_percent_values_beyond_threshold mask_obs_hist
  pyRound (mask_cm_future.length * P_obs_future)

/-- `ISIMIP._step6_scale_nr_of_entries_to_set_to_bounds`: called when the two
forced counts together exceed the sample size; rescales the lower count first,
then the upper count with the already-updated lower count in its denominator. -/
def step6_scale_nr_of_entries_to_set_to_bounds
    (nr_of_entries_to_set_to_lower_bound nr_of_entries_to_set_to_upper_bound : ℤ)
    (size_cm_future : ℕ) : ℤ × ℤ :=
  let nr_lower := pyRound ((nr_of_entries_to_set_to_lower_bound * size_cm_future : ℚ) /
    ((nr_of_entries_to_set_to_lower_bound : ℚ) + nr_of_entries_to_set_to_upper_bound))
  let nr_upper := pyRound ((nr_of_entries_to_set_to_upper_bound * size_cm_future : ℚ) /
    ((nr_lower : ℚ) + nr_of_entries_to_set_to_upper_bound))
  (nr_lower, nr_upper)

/-- The `cm_future` values in sorted order via the saved argsort permutation
(`cm_future_sorted = cm_future[cm_future_argsort]` in `ISIMIP.step6`). -/
def step6_cm_future_sorted (cm_future : List ℚ) : List ℚ :=
  (argsortQ cm_future).map (fun i => cm_future.getD i 0)

/-- The forced-count pair of `ISIMIP.step6` after the optional proportional
rescaling: the lower/upper counts are computed from the sorted exceedance
masks when the respective threshold is configured, and rescaled by
`step6_scale_nr_of_entries_to_set_to_bounds` when their sum exceeds the
size of `cm_future`. -/
def step6_nrs (adjust_frequencies_of_values_beyond_thresholds : Bool)
    (lower_threshold upper_threshold : Option ℚ)
    (obs_hist cm_hist cm_future : List ℚ) : ℤ × ℤ :=
  let obs_hist_sorted := sortQ obs_hist
  let cm_hist_sorted := sortQ cm_hist
  let cm_future_sorted := step6_cm_future_sorted cm_future
  let nr_lower : ℤ :=
    if lower_threshold.isSome then
      step6_get_nr_of_entries_to_set_to_bound adjust_frequencies_of_values_beyond_thresholds
        (obs_hist_sorted.map (beyond_lower_threshold lower_threshold))
        (cm_hist_sorted.map (beyond_lower_threshold lower_threshold))
        (cm_future_sorted.map (beyond_lower_threshold lower_threshold))
    else 0
  let nr_upper : ℤ :=
    if upper_threshold.isSome then
      step6_get_nr_of_entries_to_set_to_bound adjust_frequencies_of_values_beyond_thresholds
        (obs_hist_sorted.map (beyond_upper_threshold upper_threshold))
        (cm_hist_sorted.map (beyond_upper_threshold upper_threshold))
        (cm_future_sorted.map (beyond_upper_threshold upper_threshold))
    else 0
  if (cm_future_sorted.length : ℤ) < nr_lower + nr_upper then
    step6_scale_nr_of_entries_to_set_to_bounds nr_lower nr_upper cm_future_sorted.length
  else (nr_lower, nr_upper)

/-- The sorted mapped values of `ISIMIP.step6` before the final backsort: the
first `nr_lower` sorted entries are forced to the lower bound, the last
`nr_upper` to the upper bound (upper written after lower), and the remaining
middle entries are produced by `_step6_adjust_values_between_thresholds`.  That
subroutine fits the configured scipy distribution (external numeric fitting
code), so it enters as the abstract parameter `adjustFn`, applied to the same
five argument lists as in the source. -/
def step6_sorted_mapped (adjust_frequencies_of_values_beyond_thresholds : Bool)
    (lower_threshold upper_threshold : Option ℚ) (lower_bound upper_bound : ℚ)
    (adjustFn : List ℚ → List ℚ → List ℚ → List ℚ → List ℚ → List ℚ)
    (obs_hist obs_future cm_hist cm_future : List ℚ) : List ℚ :=
  let nrs := step6_nrs adjust_frequencies_of_values_beyond_thresholds
    lower_threshold upper_threshold obs_hist cm_hist cm_future
  let cm_future_sorted := step6_cm_future_sorted cm_future
  let n := cm_future_sorted.length
  let withBounds := setLastTo nrs.2.toNat upper_bound
    (setFirstTo nrs.1.toNat lower_bound cm_future_sorted)
  let a := min nrs.1.toNat n
  let b := n - nrs.2.toNat
  let middle := (withBounds.drop a).take (b - a)
  if middle = [] then withBounds
  else
    setSlice withBounds a (fitLen middle
      (adjustFn
        (values_between_thresholds lower_threshold upper_threshold (sortQ obs_hist))
        (values_between_thresholds lower_threshold upper_threshold (sortQ obs_future))
        (values_between_thresholds lower_threshold upper_threshold (sortQ cm_hist))
        middle
        (values_between_thresholds lower_threshold upper_threshold cm_future_sorted)))

/-- `ISIMIP.step6`: parametric quantile mapping with frequency adjustment of
values beyond the thresholds; the mapped sorted values are reinserted at the
original positions by reversing the sort permutation
(`mapped_vals[np.argsort(cm_future_argsort)]`). -/
def step6 (adjust_frequencies_of_values_beyond_thresholds : Bool)
    (lower_threshold upper_threshold : Option ℚ) (lower_bound upper_bound : ℚ)
    (adjustFn : List ℚ → List ℚ → List ℚ → List ℚ → List ℚ → List ℚ)
    (obs_hist obs_future cm_hist cm_future : List ℚ) : List ℚ :=
  let mapped := step6_sorted_mapped adjust_frequencies_of_values_beyond_thresholds
    lower_threshold upper_threshold lower_bound upper_bound adjustFn
    obs_hist obs_future cm_hist cm_future
  (argsortN (argsortQ cm_future)).map (fun i => mapped.getD i 0)

/-! ## QuantileDeltaMapping (src/PACKAGE_NAME/debias/_quantile_delta_mapping.py) -/

/-- `QuantileDeltaMapping._apply_debiasing_steps`: the time-dependent ranks
`tau_t = threshold_cdf_vals(ecdf(cm_future, cm_future, ecdf_method), cdf_threshold)`,
the additive ("absolute") or multiplicative ("relative") correction through
the fitted distribution's ppf, and optional censoring to zero.  The configured
distribution with its precomputed fits enters as the abstract functions
`ppf_obs`/`ppf_cm_hist` (external scipy fitting code), and the configured ecdf
method as `ecdfFn`. -/
def qdm_apply_debiasing_steps (trend_preservation : String)
    (censor_values_to_zero : Bool) (censoring_threshold cdf_threshold : ℚ)
    (ppf_obs ppf_cm_hist : ℚ → ℚ) (ecdfFn : List ℚ → List ℚ → List ℚ)
    (cm_future : List ℚ) : Except String (List ℚ) := do
  let tau_t := (ecdfFn cm_future cm_future).map (threshold_cdf_vals cdf_threshold)
  let bias_corrected_vals ←
    if trend_preservation = "absolute" then
      pure (List.zipWith (fun c t => c + ppf_obs t - ppf_cm_hist t) cm_future tau_t)
    else if trend_preservation = "relative" then
      pure (List.zipWith (fun c t => c * ppf_obs t / ppf_cm_hist t) cm_future tau_t)
    else
      Except.error "ValueError: trend_preservation needs to be absolute or relative"
  if censor_values_to_zero then
    pure (bias_corrected_vals.map (fun v => if v < censoring_threshold then 0 else v))
  else
    pure bias_corrected_vals

/-- `QuantileDeltaMapping.apply_location`, embedded down to the validation: the
time arrays are synthesized when absent, the size check raises a ValueError,
and only then does the windowed debiasing body (running-window machinery of
the absent utils module, abstracted as `body`) run. -/
def qdmApplyLocation (body : Unit → List ℚ) (obs cm_hist cm_future : List ℚ)
    (time_obs time_cm_hist time_cm_future : Option (List ℤ)) :
    Except String (List ℚ) :=
  let t_obs := time_obs.getD (inferTimes obs.length)
  let t_cm_hist := time_cm_hist.getD (inferTimes cm_hist.length)
  let t_cm_future := time_cm_future.getD (inferTimes cm_future.length)
  if obs.length ≠ t_obs.length ∨ cm_hist.length ≠ t_cm_hist.length ∨
      cm_future.length ≠ t_cm_future.length then
    Except.error "ValueError: dimensions of time information do not correspond"
  else
    Except.ok (body ())

/-- `ISIMIP._check_reasonable_physical_range`: raises a ValueError if any value
of the three series lies outside the configured closed range. -/
def check_reasonable_physical_range (reasonable_physical_range : Option (ℚ × ℚ))
    (obs_hist cm_hist cm_future : List ℚ) : Except String Unit :=
  match reasonable_physical_range with
  | none => Except.ok ()
  | some r =>
    if obs_hist.any (fun v => v < r.1 ∨ r.2 < v) then
      Except.error "ValueError: values of obs_hist lie outside the reasonable physical range"
    else if cm_hist.any (fun v => v < r.1 ∨ r.2 < v) then
      Except.error "ValueError: values of cm_hist lie outside the reasonable physical range"
    else if cm_future.any (fun v => v < r.1 ∨ r.2 < v) then
      Except.error "ValueError: values of cm_future lie outside the reasonable physical range"
    else Except.ok ()

/-- `ISIMIP.apply_location`, embedded down to the validation: first the
physical-range check, then time synthesis and the size check, and only then
the 8-step pipeline (running-window machinery of the absent utils module plus
steps 1-8, abstracted as `body`). -/
def isimipApplyLocation (reasonable_physical_range : Option (ℚ × ℚ))
    (body : Unit → List ℚ) (obs cm_hist cm_future : List ℚ)
    (time_obs time_cm_hist time_cm_future : Option (List ℤ)) :
    Except String (List ℚ) := do
  let _ ← check_reasonable_physical_range reasonable_physical_range obs cm_hist cm_future
  let t_obs := time_obs.getD (inferTimes obs.length)
  let t_cm_hist := time_cm_hist.getD (inferTimes cm_hist.length)
  let t_cm_future := time_cm_future.getD (inferTimes cm_future.length)
  if obs.length ≠ t_obs.length ∨ cm_hist.length ≠ t_cm_hist.length ∨
      cm_future.length ≠ t_cm_future.length then
    Except.error "ValueError: dimensions of time information do not correspond"
  else
    Except.ok (body ())

/-- The size-mismatch condition of the three `_check_time_information_and_raise_error`
helpers, compared after absent time arrays are synthesized (a synthesized array
always matches its series, so a mismatch can only come from a given array). -/
def timeSizeMismatch (obs cm_hist cm_future : List ℚ)
    (time_obs time_cm_hist time_cm_future : Option (List ℤ)) : Prop :=
  obs.length ≠ (time_obs.getD (inferTimes obs.length)).length ∨
  cm_hist.length ≠ (time_cm_hist.getD (inferTimes cm_hist.length)).length ∨
  cm_future.length ≠ (time_cm_future.getD (inferTimes cm_future.length)).length

instance (obs cm_hist cm_future : List ℚ) (a b c : Option (List ℤ)) :
    Decidable (timeSizeMismatch obs cm_hist cm_future a b c) := by
  unfold timeSizeMismatch; infer_instance

/-! ## Running-window target chunking

The two running-window classes live in the absent utils module; the target
side of their `use()` contract is modelled from the spec: "Target windows tile
the available year range step-by-step" (OverYears) and likewise over the
day-of-year cycle (OverDaysOfYear), and "across one full `use()` pass, target
subsets are pairwise disjoint and their union equals the whole input domain". -/

/-- Split a list into consecutive groups of `step` elements (the last group may
be shorter). -/
def chunkList (step : ℕ) : List α → List (List α)
  | [] => []
  | a :: t =>
    if step = 0 then [a :: t]
    else (a :: t).take step :: chunkList step (t.drop (step - 1))
termination_by l => l.length
decreasing_by
  simp [List.length_drop]
  omega

/-- Modelled from the spec: the target groups of one full running-window pass
tile the range of occurring time units (years, or days of year) in consecutive
groups of `step` units. -/
def runningWindowTargetGroups (step : ℕ) (units : List ℕ) : List (List ℕ) :=
  match units with
  | [] => []
  | a :: t =>
    let lo := t.foldl min a
    let hi := t.foldl max a
    chunkList step (List.range' lo (hi + 1 - lo))

/-- The target index set of one window: the positions whose time unit falls in
the window's target group (the masks built by the `apply_location` loops). -/
def targetIndices (units : List ℕ) (g : List ℕ) : List ℕ :=
  (List.range units.length).filter (fun i => units.getD i 0 ∈ g)

/-- One window write of the scatter loop: positions whose unit lies in the
group `g` receive the chunk's value for that position, the rest keep the
accumulator (`debiased_cm_future[mask] = ...`).  `i` is the position offset. -/
def writeChunk (units : List ℕ) (g : List ℕ) (val : ℕ → ℚ) : ℕ → List ℚ → List ℚ
  | _, [] => []
  | i, v :: rest =>
    (if units.getD i 0 ∈ g then val i else v) :: writeChunk units g val (i + 1) rest

/-- The full running-window scatter loop: starting from the zero-filled output
(`np.zeros_like`), write every window's target positions in turn; `val k i` is
the debiased value the `k`-th window produces for position `i`. -/
def windowLoop (step : ℕ) (units : List ℕ) (val : ℕ → ℕ → ℚ) : List ℚ :=
  ((runningWindowTargetGroups step units).enum.foldl
    (fun acc p => writeChunk units p.2 (val p.1) 0 acc)
    (List.replicate units.length 0))

/-! ## Shared lemmas -/

/-- Round-half-to-even never exceeds the ceiling. -/
theorem pyRound_le_ceil (q : ℚ) : pyRound q ≤ ⌈q⌉ := by
  unfold pyRound
  have hfc := Int.floor_le_ceil q
  have hle := Int.le_ceil q
  by_cases h1 : q - (⌊q⌋ : ℚ) < 1/2
  · simp only [h1, if_pos]
    exact hfc
  · have hflt : (⌊q⌋ : ℚ) < q := by
      have h' : (1:ℚ)/2 ≤ q - ⌊q⌋ := le_of_not_lt h1
      linarith
    have hsucc : ⌊q⌋ + 1 ≤ ⌈q⌉ := by
      have h' : (⌊q⌋ : ℚ) < (⌈q⌉ : ℚ) := lt_of_lt_of_le hflt hle
      exact Int.add_one_le_iff.mpr (by exact_mod_cast h')
    by_cases h2 : 1/2 < q - (⌊q⌋ : ℚ)
    · simp only [h1, h2, if_neg, if_pos, if_false]
      exact hsucc
    · by_cases h3 : (⌊q⌋ : ℤ) % 2 = 0
      · simp only [h1, h2, h3, if_neg, if_pos, if_false]
        exact hfc
      · simp only [h1, h2, h3, if_neg, if_false]
        exact hsucc

/-- Claim C2, counterexample.  At counts (3, 3) and size 5 the code rescales to
(2, 3): the upper count is *not* `round(3 * 5 / (3 + 3)) = 2`, so the two
counts are not multiplied by the same factor `size / (nr_lower + nr_upper)`;
and at counts (2, 2) and size 3 the rescaled counts (2, 2) still sum to more
than the sample size. -/
theorem C2_counterexample :
    step6_scale_nr_of_entries_to_set_to_bounds 3 3 5 ≠
      (pyRound ((3 * 5 : ℚ) / (3 + 3)), pyRound ((3 * 5 : ℚ) / (3 + 3))) ∧
    (step6_scale_nr_of_entries_to_set_to_bounds 2 2 3).1 +
      (step6_scale_nr_of_entries_to_set_to_bounds 2 2 3).2 > 3 := by
  constructor
  · intro h
    have h1 : step6_scale_nr_of_entries_to_set_to_bounds 3 3 5 = (2, 3) := by
      norm_num [step6_scale_nr_of_entries_to_set_to_bounds, pyRound]
    have h2 : pyRound ((3 * 5 : ℚ) / (3 + 3)) = 2 := by norm_num [pyRound]
    rw [h1, h2] at h
    exact absurd (congrArg Prod.snd h) (by norm_num)
  · have h1 : step6_scale_nr_of_entries_to_set_to_bounds 2 2 3 = (2, 2) := by
      norm_num [step6_scale_nr_of_entries_to_set_to_bounds, pyRound]
    rw [h1]
    norm_num

/-- Claim C2 (amended): when the two forced counts exceed the sample size, the
lower count is rescaled by `size / (nr_lower + nr_upper)` and rounded, but the
upper count is then rescaled with the *already-updated* lower count in its own
denominator (`round(nr_upper * size / (nr_lower_updated + nr_upper))`), so the
two factors differ; the updated lower count never exceeds the original one,
and (per the counterexample) the rescaled counts may still exceed the sample
size. -/
theorem C2_sequential_rescaling (L U : ℤ) (s : ℕ)
    (hL : 0 ≤ L) (hU : 0 ≤ U) (h : (s : ℤ) < L + U) :
    step6_scale_nr_of_entries_to_set_to_bounds L U s =
      (pyRound ((L * s : ℚ) / ((L : ℚ) + U)),
       pyRound ((U * s : ℚ) / ((pyRound ((L * s : ℚ) / ((L : ℚ) + U)) : ℚ) + U))) ∧
    (step6_scale_nr_of_entries_to_set_to_bounds L U s).1 ≤ L := by
  constructor
  · rfl
  · show pyRound ((L * s : ℚ) / ((L : ℚ) + U)) ≤ L
    have hpos : (0 : ℚ) < (L : ℚ) + U := by
      have h' : (0 : ℤ) < L + U := lt_of_le_of_lt (Int.ofNat_nonneg s) h
      exact_mod_cast h'
    have hq : ((L : ℚ) * s) / ((L : ℚ) + U) ≤ (L : ℚ) := by
      rw [div_le_iff₀ hpos]
      have hsle : ((s : ℕ) : ℚ) ≤ (L : ℚ) + U := by exact_mod_cast le_of_lt h
      have hmul : (L : ℚ) * s ≤ (L : ℚ) * ((L : ℚ) + U) :=
        mul_le_mul_of_nonneg_left hsle (by exact_mod_cast hL)
      linarith
    calc pyRound ((L * s : ℚ) / ((L : ℚ) + U)) ≤ ⌈(L * s : ℚ) / ((L : ℚ) + U)⌉ :=
          pyRound_le_ceil _
      _ ≤ L := Int.ceil_le.mpr (by exact hq)

/-- Claim C2, witness: the amended statement at counts (3, 3), size 5. -/
theorem C2_sequential_rescaling_witness :
    step6_scale_nr_of_entries_to_set_to_bounds 3 3 5 =
      (pyRound ((3 * 5 : ℚ) / ((3 : ℚ) + 3)),
       pyRound (((3 : ℤ) * 5 : ℚ) / ((pyRound (((3 : ℤ) * 5 : ℚ) / ((3 : ℚ) + 3)) : ℚ) + 3))) ∧
    (step6_scale_nr_of_entries_to_set_to_bounds 3 3 5).1 ≤ 3 :=
  C2_sequential_rescaling 3 3 5 (by norm_num) (by norm_num) (by norm_num)

/-- Claim C1 (code bug): `_step3_remove_trend` guards the trend with
`regression.pvalue < 0.05 and self.trend_removal_with_significance_test`, so
with the significance-test flag *off* the computed annual trend is always zero
and nothing is ever subtracted — for the series [0, 1, 2] over years
2000-2002 (regression slope 1) the output is unchanged for every p-value —
whereas with the flag on and a significant p-value the trend
`slope * (year - mean year) = [-1, 0, 1]` is subtracted.  The claim (and the
step3 docstring, "linear trends are only removed subject to significance if
the flag is True") say the flag-off case must always subtract the trend. -/
theorem C1_flag_off_never_subtracts_trend :
    (∀ pvalue : ℚ,
      step3_remove_trend false pvalue [0, 1, 2] [2000, 2001, 2002] = ([0, 1, 2], [0, 0, 0])) ∧
    step3_remove_trend true (1/100) [0, 1, 2] [2000, 2001, 2002] = ([1, 1, 1], [-1, 0, 1]) := by
  constructor
  · intro p
    simp [step3_remove_trend]
  · norm_num [step3_remove_trend, get_years_and_yearly_means, linregressSlope, meanQ,
      List.dedup, List.pwFilter, List.mergeSort, List.filterMap_cons, List.filterMap_nil]

/-- Claim C4 (confirmed): with `delta_shift = "no_shift"`, `SSR = False`,
`running_window_mode = False`, `apply_by_month = False` and all three series
equal to [1, 2, 3, 4, 5] (default linear ecdf/iecdf methods, no time arrays),
`apply_location` returns [1, 2, 3, 4, 5]; and the mapping applied by
`_apply_CDFt_mapping` is
`iecdf(cm_future, ecdf(cm_hist, iecdf(obs, ecdf(cm_future, cm_future))))`. -/
theorem C4_cdft_identity :
    (∀ (u : ℕ → ℚ) (wb mb : Unit → Except String (List ℚ)),
      cdftApplyLocation false "no_shift" false false u wb mb
        [1, 2, 3, 4, 5] [1, 2, 3, 4, 5] [1, 2, 3, 4, 5] none none none =
        Except.ok [1, 2, 3, 4, 5]) ∧
    apply_CDFt_mapping "no_shift" [1, 2, 3, 4, 5] [1, 2, 3, 4, 5] [1, 2, 3, 4, 5] =
      Except.ok (iecdf_linear [1, 2, 3, 4, 5]
        (ecdf_linear_interpolation [1, 2, 3, 4, 5]
          (iecdf_linear [1, 2, 3, 4, 5]
            (ecdf_linear_interpolation [1, 2, 3, 4, 5] [1, 2, 3, 4, 5])))) := by
  have h1 : ecdf_linear_interpolation [1, 2, 3, 4, 5] [1, 2, 3, 4, 5] =
      [0, 1/4, 1/2, 3/4, 1] := by
    norm_num [ecdf_linear_interpolation, sortQ, List.insertionSort, List.orderedInsert,
      ecdfLinAt, posInSorted]
  have h2 : iecdf_linear [1, 2, 3, 4, 5] [0, 1/4, 1/2, 3/4, 1] = [1, 2, 3, 4, 5] := by
    norm_num [iecdf_linear, sortQ, List.insertionSort, List.orderedInsert, iecdfLinAt,
      show Int.toNat 2 = 2 from rfl, show Int.toNat 3 = 3 from rfl,
      show Int.toNat 4 = 4 from rfl]
  constructor
  · intro u wb mb
    norm_num [cdftApplyLocation, inferTimes, apply_on_month_and_window, apply_CDFt_mapping,
      h1, h2, show ("no_shift" : String) ≠ "additive" from by decide,
      show ("no_shift" : String) ≠ "multiplicative" from by decide,
      show (pure [1, 2, 3, 4, 5] : Except String (List ℚ)) = Except.ok [1, 2, 3, 4, 5] from rfl]
  · rfl

/-- Sequencing an Except error short-circuits. -/
theorem except_error_bind {A B : Type} (e : String) (f : A → Except String B) :
    (Except.error e : Except String A) >>= f = Except.error e := rfl

/-- Sequencing an Except success continues with the value. -/
theorem except_ok_bind {A B : Type} (a : A) (f : A → Except String B) :
    (Except.ok a : Except String A) >>= f = f a := rfl

/-- Claim C9 (confirmed): for each of CDFt, QDM and ISIMIP, whenever one of the
three series differs in size from its (given or synthesized) time array,
`apply_location` raises a fatal ValueError before any chunk or stage of the
debiasing computation runs — the windowed body never executes (the statements
hold for *every* body) and no partial result is returned.  For ISIMIP the
physical-range check runs first, so the result is some fatal ValueError
(the time-dimension one whenever the range check passes). -/
theorem C9_size_mismatch_is_fatal_before_processing :
    (∀ (SSR : Bool) (delta_shift : String) (abm rwm : Bool) (u : ℕ → ℚ)
       (wb mb : Unit → Except String (List ℚ)) (obs cm_hist cm_future : List ℚ)
       (t1 t2 t3 : Option (List ℤ)),
       timeSizeMismatch obs cm_hist cm_future t1 t2 t3 →
       cdftApplyLocation SSR delta_shift abm rwm u wb mb obs cm_hist cm_future t1 t2 t3 =
         Except.error "ValueError: dimensions of time information do not correspond") ∧
    (∀ (body : Unit → List ℚ) (obs cm_hist cm_future : List ℚ) (t1 t2 t3 : Option (List ℤ)),
       timeSizeMismatch obs cm_hist cm_future t1 t2 t3 →
       qdmApplyLocation body obs cm_hist cm_future t1 t2 t3 =
         Except.error "ValueError: dimensions of time information do not correspond") ∧
    (∀ (r : Option (ℚ × ℚ)) (body : Unit → List ℚ) (obs cm_hist cm_future : List ℚ)
       (t1 t2 t3 : Option (List ℤ)),
       timeSizeMismatch obs cm_hist cm_future t1 t2 t3 →
       ∃ msg, isimipApplyLocation r body obs cm_hist cm_future t1 t2 t3 =
         Except.error msg) := by
  refine ⟨?_, ?_, ?_⟩
  · intro SSR delta_shift abm rwm u wb mb obs cm_hist cm_future t1 t2 t3 h
    unfold timeSizeMismatch at h
    unfold cdftApplyLocation
    rw [if_pos h]
  · intro body obs cm_hist cm_future t1 t2 t3 h
    unfold timeSizeMismatch at h
    unfold qdmApplyLocation
    rw [if_pos h]
  · intro r body obs cm_hist cm_future t1 t2 t3 h
    unfold timeSizeMismatch at h
    unfold isimipApplyLocation
    cases hc : check_reasonable_physical_range r obs cm_hist cm_future with
    | error e =>
      refine ⟨e, ?_⟩
      simp only [hc, except_error_bind]
    | ok u =>
      refine ⟨"ValueError: dimensions of time information do not correspond", ?_⟩
      simp only [hc, except_ok_bind]
      rw [if_pos h]

/-- Claim C9, witness: a one-sample series with an empty given time array is
rejected by all three debiasers. -/
theorem C9_size_mismatch_is_fatal_before_processing_witness :
    cdftApplyLocation false "no_shift" false false (fun _ => 0)
      (fun _ => Except.ok []) (fun _ => Except.ok [])
      [1] [1] [1] (some []) none none =
      Except.error "ValueError: dimensions of time information do not correspond" ∧
    qdmApplyLocation (fun _ => []) [1] [1] [1] (some []) none none =
      Except.error "ValueError: dimensions of time information do not correspond" ∧
    (∃ msg, isimipApplyLocation none (fun _ => []) [1] [1] [1] (some []) none none =
      Except.error msg) :=
  ⟨C9_size_mismatch_is_fatal_before_processing.1 false "no_shift" false false _ _ _ _ _ _ _ _ _
      (by norm_num [timeSizeMismatch, inferTimes]),
   C9_size_mismatch_is_fatal_before_processing.2.1 _ _ _ _ _ _ _
      (by norm_num [timeSizeMismatch, inferTimes]),
   C9_size_mismatch_is_fatal_before_processing.2.2 none _ _ _ _ _ _ _
      (by norm_num [timeSizeMismatch, inferTimes])⟩

/-- Claim C5 (confirmed): with `trend_preservation = "absolute"` and censoring
disabled, `_apply_debiasing_steps` returns, for every position of the chunk,
`output - cm_future = ppf(tau_t; fit_obs) - ppf(tau_t; fit_cm_hist)` where
`tau_t = threshold_cdf_vals(ecdf(cm_future, cm_future, ecdf_method), cdf_threshold)`
is the value's rank within its own chunk's `cm_future`; stated for an arbitrary
configured ecdf method and arbitrary fitted-distribution ppfs. -/
theorem C5_qdm_absolute_trend_preservation
    (censoring_threshold cdf_threshold : ℚ) (ppf_obs ppf_cm_hist : ℚ → ℚ)
    (ecdfFn : List ℚ → List ℚ → List ℚ) (cm_future : List ℚ)
    (hlen : (ecdfFn cm_future cm_future).length = cm_future.length)
    (i : ℕ) (hi : i < cm_future.length) :
    ∃ out, qdm_apply_debiasing_steps "absolute" false censoring_threshold cdf_threshold
        ppf_obs ppf_cm_hist ecdfFn cm_future = Except.ok out ∧
      out.length = cm_future.length ∧
      out.getD i 0 - cm_future.getD i 0 =
        ppf_obs (threshold_cdf_vals cdf_threshold ((ecdfFn cm_future cm_future).getD i 0)) -
          ppf_cm_hist (threshold_cdf_vals cdf_threshold ((ecdfFn cm_future cm_future).getD i 0)) := by
  refine ⟨List.zipWith (fun c t => c + ppf_obs t - ppf_cm_hist t) cm_future
    ((ecdfFn cm_future cm_future).map (threshold_cdf_vals cdf_threshold)), rfl, ?_, ?_⟩
  · simp [List.length_zipWith, hlen]
  · have hi2 : i < (List.zipWith (fun c t => c + ppf_obs t - ppf_cm_hist t) cm_future
        ((ecdfFn cm_future cm_future).map (threshold_cdf_vals cdf_threshold))).length := by
      simp [List.length_zipWith, hlen]
      omega
    have hi3 : i < ((ecdfFn cm_future cm_future).map (threshold_cdf_vals cdf_threshold)).length := by
      simp [hlen]
      omega
    have hi4 : i < (ecdfFn cm_future cm_future).length := by omega
    rw [List.getD_eq_getElem _ _ hi2, List.getD_eq_getElem _ _ hi,
      List.getD_eq_getElem _ _ hi4, List.getElem_zipWith, List.getElem_map]
    ring

/-- Claim C5, witness: the identity distribution on the chunk [1, 2] at
position 0. -/
theorem C5_qdm_absolute_trend_preservation_witness :
    ∃ out, qdm_apply_debiasing_steps "absolute" false 0 0 id id (fun x _ => x) [1, 2] =
        Except.ok out ∧
      out.length = 2 ∧
      out.getD 0 0 - ([1, 2] : List ℚ).getD 0 0 =
        id (threshold_cdf_vals 0 (([1, 2] : List ℚ).getD 0 0)) -
          id (threshold_cdf_vals 0 (([1, 2] : List ℚ).getD 0 0)) :=
  C5_qdm_absolute_trend_preservation 0 0 id id (fun x _ => x) [1, 2] rfl 0 (by norm_num)

/-- A left fold by `min` lands on one of the inputs. -/
theorem foldl_min_mem {α : Type} [LinearOrder α] : ∀ (t : List α) (a : α), t.foldl min a ∈ a :: t
  | [], a => List.mem_cons_self a []
  | b :: t, a => by
    have h := foldl_min_mem t (min a b)
    have heq : (b :: t).foldl min a = t.foldl min (min a b) := rfl
    rw [heq]
    rcases List.mem_cons.mp h with h1 | h1
    · rcases min_choice a b with hc | hc
      · rw [h1, hc]
        exact List.mem_cons_self a (b :: t)
      · rw [h1, hc]
        exact List.mem_cons_of_mem a (List.mem_cons_self b t)
    · exact List.mem_cons_of_mem a (List.mem_cons_of_mem b h1)

/-- A left fold by `min` is a lower bound of the start and all elements. -/
theorem foldl_min_le {α : Type} [LinearOrder α] :
    ∀ (t : List α) (a : α), ∀ v ∈ a :: t, t.foldl min a ≤ v
  | [], a => by
    intro v hv
    simp at hv
    simp [hv]
  | b :: t, a => by
    intro v hv
    have heq : (b :: t).foldl min a = t.foldl min (min a b) := rfl
    rw [heq]
    have hmin : t.foldl min (min a b) ≤ min a b :=
      foldl_min_le t (min a b) (min a b) (by simp)
    rcases List.mem_cons.mp hv with h1 | h1
    · rw [h1]
      exact le_trans hmin (min_le_left a b)
    · rcases List.mem_cons.mp h1 with h2 | h2
      · rw [h2]
        exact le_trans hmin (min_le_right a b)
      · exact foldl_min_le t (min a b) v (List.mem_cons_of_mem (min a b) h2)

/-- When the positive selection is nonempty, `minPos` returns a member of it
that bounds it from below. -/
theorem minPos_spec (l : List ℚ) (h : l.filter (fun v => 0 < v) ≠ []) :
    ∃ m, minPos l = some m ∧ m ∈ l.filter (fun v => 0 < v) ∧
      ∀ v ∈ l.filter (fun v => 0 < v), m ≤ v := by
  cases hf : l.filter (fun v => 0 < v) with
  | nil => exact absurd hf h
  | cons a t =>
    refine ⟨t.foldl min a, ?_, ?_, ?_⟩
    · unfold minPos
      rw [hf]
    · exact foldl_min_mem t a
    · exact foldl_min_le t a

/-- An empty positive selection makes `minPos` fail. -/
theorem minPos_eq_none (l : List ℚ) (h : l.filter (fun v => 0 < v) = []) :
    minPos l = none := by
  unfold minPos
  rw [h]

/-- Claim C10 (confirmed): implicit SSR precondition — if any of the three
series of a processed chunk has no strictly positive value, `_get_threshold`
takes the minimum of an empty selection and the chunk computation fails with
the numpy reduction error (not the documented time-dimension ValueError),
for every delta-shift setting and random state. -/
theorem C10_ssr_needs_positive_values (delta_shift : String) (u : ℕ → ℚ)
    (obs cm_hist cm_future : List ℚ)
    (h : obs.filter (fun v => 0 < v) = [] ∨ cm_hist.filter (fun v => 0 < v) = [] ∨
      cm_future.filter (fun v => 0 < v) = []) :
    apply_on_month_and_window true delta_shift u obs cm_hist cm_future =
      Except.error "numpy error: zero-size array to reduction operation minimum" := by
  have hthr : get_threshold obs cm_hist cm_future = none := by
    unfold get_threshold
    rcases h with h1 | h1 | h1
    · simp [minPos_eq_none _ h1]
    · cases hmo : minPos obs <;> simp [minPos_eq_none _ h1, hmo]
    · cases hmo : minPos obs <;> cases hmh : minPos cm_hist <;>
        simp [minPos_eq_none _ h1, hmo, hmh]
  have hssr : apply_SSR_steps_before_adjustment obs cm_hist cm_future u = none := by
    unfold apply_SSR_steps_before_adjustment
    simp [hthr]
  unfold apply_on_month_and_window
  simp [hssr]

/-- Claim C10, witness: an all-zero `cm_hist` chunk makes the SSR path fail. -/
theorem C10_ssr_needs_positive_values_witness :
    apply_on_month_and_window true "no_shift" (fun _ => 0) [1, 2] [0, 0] [3] =
      Except.error "numpy error: zero-size array to reduction operation minimum" :=
  C10_ssr_needs_positive_values "no_shift" (fun _ => 0) [1, 2] [0, 0] [3]
    (by norm_num)

/-- Indexing a map over a range. -/
theorem getD_map_range (n : ℕ) (f : ℕ → ℚ) (i : ℕ) (hi : i < n) :
    ((List.range n).map f).getD i 0 = f i := by
  rw [List.getD_eq_getElem _ _ (by simpa using hi)]
  simp

/-- For each of the three valid delta-shift settings the CDFt mapping
succeeds. -/
theorem apply_CDFt_mapping_ok (delta_shift : String)
    (hshift : delta_shift = "no_shift" ∨ delta_shift = "additive" ∨
      delta_shift = "multiplicative") (obs cm_hist cm_future : List ℚ) :
    ∃ m, apply_CDFt_mapping delta_shift obs cm_hist cm_future = Except.ok m := by
  rcases hshift with h | h | h <;> subst h <;> exact ⟨_, rfl⟩

/-- Claim C7 (confirmed): on a chunk processed with SSR the threshold is the
minimum strictly positive value over obs, cm_hist and cm_future; zeros are
replaced by uniform draws on [0, threshold) (one global-stream draw per
position); and since every mapped value below the threshold is set back to
zero, every value returned for the chunk is either exactly 0 or at least the
threshold. -/
theorem C7_ssr_threshold_and_zeroing (delta_shift : String) (u : ℕ → ℚ)
    (obs cm_hist cm_future : List ℚ)
    (h1 : obs.filter (fun v => 0 < v) ≠ [])
    (h2 : cm_hist.filter (fun v => 0 < v) ≠ [])
    (h3 : cm_future.filter (fun v => 0 < v) ≠ [])
    (hshift : delta_shift = "no_shift" ∨ delta_shift = "additive" ∨
      delta_shift = "multiplicative") :
    ∃ thr res,
      get_threshold obs cm_hist cm_future = some thr ∧
      thr ∈ (obs ++ cm_hist ++ cm_future).filter (fun v => 0 < v) ∧
      (∀ v ∈ (obs ++ cm_hist ++ cm_future).filter (fun v => 0 < v), thr ≤ v) ∧
      (∀ i, i < obs.length → obs.getD i 0 = 0 →
        (randomize_zero_values_between_zero_and_threshold obs thr u).getD i 0 =
          uniformDraw 0 thr (u i)) ∧
      apply_on_month_and_window true delta_shift u obs cm_hist cm_future =
        Except.ok res ∧
      ∀ v ∈ res, v = 0 ∨ thr ≤ v := by
  obtain ⟨a, ha, hamem, hale⟩ := minPos_spec obs h1
  obtain ⟨b, hb, hbmem, hble⟩ := minPos_spec cm_hist h2
  obtain ⟨c, hc, hcmem, hcle⟩ := minPos_spec cm_future h3
  have hthr : get_threshold obs cm_hist cm_future = some (min (min a b) c) := by
    unfold get_threshold
    simp [ha, hb, hc]
  have hssr : apply_SSR_steps_before_adjustment obs cm_hist cm_future u =
      some (randomize_zero_values_between_zero_and_threshold obs (min (min a b) c) u,
        randomize_zero_values_between_zero_and_threshold cm_hist (min (min a b) c)
          (shiftStream u obs.length),
        randomize_zero_values_between_zero_and_threshold cm_future (min (min a b) c)
          (shiftStream u (obs.length + cm_hist.length)),
        min (min a b) c) := by
    unfold apply_SSR_steps_before_adjustment
    simp [hthr]
  obtain ⟨m, hm⟩ := apply_CDFt_mapping_ok delta_shift hshift
    (randomize_zero_values_between_zero_and_threshold obs (min (min a b) c) u)
    (randomize_zero_values_between_zero_and_threshold cm_hist (min (min a b) c)
      (shiftStream u obs.length))
    (randomize_zero_values_between_zero_and_threshold cm_future (min (min a b) c)
      (shiftStream u (obs.length + cm_hist.length)))
  refine ⟨min (min a b) c, set_values_below_threshold_to_zero m (min (min a b) c),
    hthr, ?_, ?_, ?_, ?_, ?_⟩
  · rw [List.filter_append, List.filter_append]
    rcases min_choice (min a b) c with hmc | hmc
    · rcases min_choice a b with hab | hab
      · rw [hmc, hab]
        exact List.mem_append_left _ (List.mem_append_left _ hamem)
      · rw [hmc, hab]
        exact List.mem_append_left _ (List.mem_append_right _ hbmem)
    · rw [hmc]
      exact List.mem_append_right _ hcmem
  · intro v hv
    rw [List.filter_append, List.filter_append] at hv
    rcases List.mem_append.mp hv with hv1 | hv1
    · rcases List.mem_append.mp hv1 with hv2 | hv2
      · exact le_trans (le_trans (min_le_left _ _) (min_le_left a b)) (hale v hv2)
      · exact le_trans (le_trans (min_le_left _ _) (min_le_right a b)) (hble v hv2)
    · exact le_trans (min_le_right _ _) (hcle v hv1)
  · intro i hi h0
    unfold randomize_zero_values_between_zero_and_threshold
    rw [getD_map_range _ _ _ hi, if_pos h0]
  · unfold apply_on_month_and_window
    rw [hssr]
    simp only [hm, except_ok_bind]
    rfl
  · intro v hv
    unfold set_values_below_threshold_to_zero at hv
    obtain ⟨w, hw, hweq⟩ := List.mem_map.mp hv
    by_cases hlt : w < min (min a b) c
    · rw [if_pos hlt] at hweq
      exact Or.inl hweq.symm
    · rw [if_neg hlt] at hweq
      rw [← hweq]
      exact Or.inr (le_of_not_lt hlt)

/-- Claim C7, witness: obs = [0, 2], cm_hist = [1], cm_future = [3] give
threshold 1 under the no-shift configuration. -/
theorem C7_ssr_threshold_and_zeroing_witness :
    ∃ thr res,
      get_threshold [0, 2] [1] [3] = some thr ∧
      thr ∈ (([0, 2] ++ [1] ++ [3] : List ℚ)).filter (fun v => 0 < v) ∧
      (∀ v ∈ (([0, 2] ++ [1] ++ [3] : List ℚ)).filter (fun v => 0 < v), thr ≤ v) ∧
      (∀ i, i < ([0, 2] : List ℚ).length → ([0, 2] : List ℚ).getD i 0 = 0 →
        (randomize_zero_values_between_zero_and_threshold [0, 2] thr (fun _ => 1/2)).getD i 0 =
          uniformDraw 0 thr ((fun _ => (1 : ℚ)/2) i)) ∧
      apply_on_month_and_window true "no_shift" (fun _ => 1/2) [0, 2] [1] [3] =
        Except.ok res ∧
      ∀ v ∈ res, v = 0 ∨ thr ≤ v :=
  C7_ssr_threshold_and_zeroing "no_shift" (fun _ => 1/2) [0, 2] [1] [3]
    (by norm_num) (by norm_num) (by norm_num) (Or.inl rfl)

/-- A left fold by `max` is an upper bound of the start and all elements. -/
theorem foldl_le_max {α : Type} [LinearOrder α] :
    ∀ (t : List α) (a : α), ∀ v ∈ a :: t, v ≤ t.foldl max a
  | [], a => by
    intro v hv
    simp at hv
    simp [hv]
  | b :: t, a => by
    intro v hv
    have heq : (b :: t).foldl max a = t.foldl max (max a b) := rfl
    rw [heq]
    have hmax : max a b ≤ t.foldl max (max a b) :=
      foldl_le_max t (max a b) (max a b) (by simp)
    rcases List.mem_cons.mp hv with h1 | h1
    · rw [h1]
      exact le_trans (le_max_left a b) hmax
    · rcases List.mem_cons.mp h1 with h2 | h2
      · rw [h2]
        exact le_trans (le_max_right a b) hmax
      · exact foldl_le_max t (max a b) v (List.mem_cons_of_mem (max a b) h2)

/-- Flattening the chunks of a list recovers the list (positive step). -/
theorem chunkList_flatten {α : Type} (step : ℕ) (hs : 0 < step) :
    ∀ (n : ℕ) (l : List α), l.length ≤ n → (chunkList step l).flatten = l := by
  intro n
  induction n with
  | zero =>
    intro l hl
    have h0 : l = [] := List.eq_nil_of_length_eq_zero (Nat.le_zero.mp hl)
    subst h0
    rw [chunkList]
    rfl
  | succ m ih =>
    intro l hl
    cases l with
    | nil =>
      rw [chunkList]
      rfl
    | cons a t =>
      rw [chunkList]
      rw [if_neg (Nat.pos_iff_ne_zero.mp hs)]
      rw [List.flatten_cons, ih (t.drop (step - 1))
        (by simp only [List.length_drop]; simp only [List.length_cons] at hl; omega)]
      obtain ⟨k, hk⟩ : ∃ k, step = k + 1 := ⟨step - 1, by omega⟩
      subst hk
      rw [List.take_succ_cons]
      simp [List.take_append_drop]

/-- The target groups of one running-window pass contain every occurring time
unit in exactly one group: the partition invariant of `use()`, at the level of
the tiled unit range. -/
theorem runningWindowTargetGroups_partition (step : ℕ) (hs : 0 < step)
    (units : List ℕ) (y : ℕ) (hy : y ∈ units) :
    ∃! k, k < (runningWindowTargetGroups step units).length ∧
      y ∈ (runningWindowTargetGroups step units).getD k [] := by
  cases units with
  | nil => exact absurd hy (List.not_mem_nil y)
  | cons a t =>
    have hflat : (runningWindowTargetGroups step (a :: t)).flatten =
        List.range' (t.foldl min a) (t.foldl max a + 1 - t.foldl min a) := by
      unfold runningWindowTargetGroups
      exact chunkList_flatten step hs _ _ le_rfl
    have hmem : y ∈ List.range' (t.foldl min a) (t.foldl max a + 1 - t.foldl min a) := by
      have hlo : t.foldl min a ≤ y := foldl_min_le t a y hy
      have hhi : y ≤ t.foldl max a := foldl_le_max t a y hy
      exact List.mem_range'_1.mpr ⟨hlo, by omega⟩
    have hnodup : (runningWindowTargetGroups step (a :: t)).flatten.Nodup := by
      rw [hflat]
      exact List.nodup_range' _ _
    have hdisj : (runningWindowTargetGroups step (a :: t)).Pairwise List.Disjoint :=
      (List.nodup_flatten.mp hnodup).2
    have hymem : y ∈ (runningWindowTargetGroups step (a :: t)).flatten := by
      rw [hflat]
      exact hmem
    obtain ⟨g, hg, hyg⟩ := List.mem_flatten.mp hymem
    obtain ⟨k, hk, hgk⟩ := List.getElem_of_mem hg
    refine ⟨k, ⟨hk, ?_⟩, ?_⟩
    · rw [List.getD_eq_getElem _ _ hk, hgk]
      exact hyg
    · intro k' hk'
      by_contra hne
      rcases Nat.lt_trichotomy k' k with hlt | heq | hgt
      · have hd := List.pairwise_iff_getElem.mp hdisj k' k hk'.1 hk hlt
        have hy1 : y ∈ (runningWindowTargetGroups step (a :: t))[k'] := by
          rw [← List.getD_eq_getElem _ ([] : List ℕ) hk'.1]
          exact hk'.2
        exact hd hy1 (by rw [hgk]; exact hyg)
      · exact hne heq
      · have hd := List.pairwise_iff_getElem.mp hdisj k k' hk hk'.1 hgt
        have hy1 : y ∈ (runningWindowTargetGroups step (a :: t))[k'] := by
          rw [← List.getD_eq_getElem _ ([] : List ℕ) hk'.1]
          exact hk'.2
        exact hd (by rw [hgk]; exact hyg) hy1

/-- One window write preserves the output length. -/
theorem writeChunk_length (units g : List ℕ) (val : ℕ → ℚ) :
    ∀ (acc : List ℚ) (off : ℕ), (writeChunk units g val off acc).length = acc.length
  | [], _ => rfl
  | v :: rest, off => by
    unfold writeChunk
    simp [writeChunk_length units g val rest (off + 1)]

/-- Value of one window write at a position. -/
theorem writeChunk_getD (units g : List ℕ) (val : ℕ → ℚ) :
    ∀ (acc : List ℚ) (off i : ℕ), i < acc.length →
    (writeChunk units g val off acc).getD i 0 =
      if units.getD (off + i) 0 ∈ g then val (off + i) else acc.getD i 0
  | [], off, i, hi => absurd hi (by simp)
  | v :: rest, off, 0, hi => by
    unfold writeChunk
    simp
  | v :: rest, off, j + 1, hi => by
    unfold writeChunk
    have h := writeChunk_getD units g val rest (off + 1) j (by simpa using Nat.lt_of_succ_lt_succ hi)
    simpa [Nat.add_assoc, Nat.add_comm 1 j] using h

/-- The whole scatter loop preserves the output length. -/
theorem foldl_writeChunk_length (units : List ℕ) (val : ℕ → ℕ → ℚ) :
    ∀ (ps : List (ℕ × List ℕ)) (acc : List ℚ),
    (ps.foldl (fun acc p => writeChunk units p.2 (val p.1) 0 acc) acc).length = acc.length
  | [], acc => rfl
  | p :: ps, acc => by
    rw [List.foldl_cons, foldl_writeChunk_length units val ps _, writeChunk_length]

/-- A position whose unit no window group contains keeps its accumulator
value through the scatter loop. -/
theorem foldl_writeChunk_notmem (units : List ℕ) (val : ℕ → ℕ → ℚ) :
    ∀ (ps : List (ℕ × List ℕ)) (acc : List ℚ) (i : ℕ), i < acc.length →
    (∀ p ∈ ps, units.getD i 0 ∉ p.2) →
    (ps.foldl (fun acc p => writeChunk units p.2 (val p.1) 0 acc) acc).getD i 0 =
      acc.getD i 0
  | [], acc, i, hi, hnone => rfl
  | p :: ps, acc, i, hi, hnone => by
    rw [List.foldl_cons]
    rw [foldl_writeChunk_notmem units val ps _ i (by rw [writeChunk_length]; exact hi)
      (fun q hq => hnone q (List.mem_cons_of_mem p hq))]
    rw [writeChunk_getD units p.2 (val p.1) acc 0 i hi]
    rw [Nat.zero_add, if_neg (hnone p (List.mem_cons_self p ps))]

/-- A position whose unit exactly one window group contains receives that
window's value through the scatter loop. -/
theorem foldl_writeChunk_hit (units : List ℕ) (val : ℕ → ℕ → ℚ) :
    ∀ (ps : List (ℕ × List ℕ)) (acc : List ℚ) (i k : ℕ) (g : List ℕ),
    i < acc.length → (k, g) ∈ ps → units.getD i 0 ∈ g →
    (∀ p ∈ ps, units.getD i 0 ∈ p.2 → p = (k, g)) →
    (ps.foldl (fun acc p => writeChunk units p.2 (val p.1) 0 acc) acc).getD i 0 = val k i
  | [], acc, i, k, g, hi, hmem, hyg, huniq => absurd hmem (List.not_mem_nil _)
  | p :: ps, acc, i, k, g, hi, hmem, hyg, huniq => by
    rw [List.foldl_cons]
    by_cases hmem' : (k, g) ∈ ps
    · exact foldl_writeChunk_hit units val ps _ i k g
        (by rw [writeChunk_length]; exact hi) hmem' hyg
        (fun q hq => huniq q (List.mem_cons_of_mem p hq))
    · have hp : p = (k, g) := by
        rcases List.mem_cons.mp hmem with h | h
        · exact h.symm
        · exact absurd h hmem'
      subst hp
      rw [foldl_writeChunk_notmem units val ps _ i (by rw [writeChunk_length]; exact hi)
        (fun q hq hqmem => hmem' (by rw [← huniq q (List.mem_cons_of_mem _ hq) hqmem]; exact hq))]
      rw [writeChunk_getD units _ _ acc 0 i hi]
      rw [Nat.zero_add, if_pos hyg]

/-- Membership in a window's target index set. -/
theorem mem_targetIndices (units g : List ℕ) (i : ℕ) :
    i ∈ targetIndices units g ↔ i < units.length ∧ units.getD i 0 ∈ g := by
  unfold targetIndices
  simp [List.mem_filter, List.mem_range]

/-- Claim C3 (confirmed, spec-modelled): across one full running-window pass
the target index sets are pairwise disjoint and their union is the whole index
range of the future series — every position belongs to the target set of
exactly one window — and therefore the scatter loop writes every element of
the returned series exactly once: the output at each position is the value
produced by its unique window, never the zero fill. -/
theorem C3_running_window_partition_and_single_write (step : ℕ) (units : List ℕ)
    (hs : 0 < step) (i : ℕ) (hi : i < units.length) :
    (∃! k, k < (runningWindowTargetGroups step units).length ∧
      i ∈ targetIndices units ((runningWindowTargetGroups step units).getD k [])) ∧
    (∀ val : ℕ → ℕ → ℚ,
      (windowLoop step units val).length = units.length ∧
      ∃ k, k < (runningWindowTargetGroups step units).length ∧
        i ∈ targetIndices units ((runningWindowTargetGroups step units).getD k []) ∧
        (windowLoop step units val).getD i 0 = val k i) := by
  have hy : units.getD i 0 ∈ units := by
    rw [List.getD_eq_getElem _ _ hi]
    exact List.getElem_mem hi
  obtain ⟨k, ⟨hk, hyk⟩, huniq⟩ := runningWindowTargetGroups_partition step hs units _ hy
  constructor
  · refine ⟨k, ⟨hk, (mem_targetIndices _ _ _).mpr ⟨hi, hyk⟩⟩, ?_⟩
    intro k' hk'
    exact huniq k' ⟨hk'.1, ((mem_targetIndices _ _ _).mp hk'.2).2⟩
  · intro val
    constructor
    · unfold windowLoop
      rw [foldl_writeChunk_length]
      simp
    · refine ⟨k, hk, (mem_targetIndices _ _ _).mpr ⟨hi, hyk⟩, ?_⟩
      unfold windowLoop
      apply foldl_writeChunk_hit units val _ _ i k
        ((runningWindowTargetGroups step units).getD k [])
        (by simp [hi]) ?_ hyk ?_
      · apply List.mem_enum_iff_getElem?.mpr
        rw [List.getElem?_eq_getElem hk, List.getD_eq_getElem _ _ hk]
      · intro p hp hpmem
        obtain ⟨k', g'⟩ := p
        have hg' := List.mem_enum_iff_getElem?.mp hp
        have hk'len : k' < (runningWindowTargetGroups step units).length := by
          by_contra hc
          rw [List.getElem?_eq_none (by omega)] at hg'
          exact Option.noConfusion hg'
        have hg'eq : g' = (runningWindowTargetGroups step units).getD k' [] := by
          rw [List.getElem?_eq_getElem hk'len] at hg'
          rw [List.getD_eq_getElem _ _ hk'len]
          exact (Option.some_inj.mp hg').symm
        have hkeq : k' = k := huniq k' ⟨hk'len, by rw [← hg'eq]; exact hpmem⟩
        subst hkeq
        rw [hg'eq]

/-- Claim C3, witness: three years [5, 5, 6, 7] with step 2 — position 2
(year 6) is written exactly once, by window 0 covering years 5-6. -/
theorem C3_running_window_partition_and_single_write_witness :
    (∃! k, k < (runningWindowTargetGroups 2 [5, 5, 6, 7]).length ∧
      2 ∈ targetIndices [5, 5, 6, 7] ((runningWindowTargetGroups 2 [5, 5, 6, 7]).getD k [])) ∧
    (∀ val : ℕ → ℕ → ℚ,
      (windowLoop 2 [5, 5, 6, 7] val).length = 4 ∧
      ∃ k, k < (runningWindowTargetGroups 2 [5, 5, 6, 7]).length ∧
        2 ∈ targetIndices [5, 5, 6, 7] ((runningWindowTargetGroups 2 [5, 5, 6, 7]).getD k []) ∧
        (windowLoop 2 [5, 5, 6, 7] val).getD 2 0 = val k 2) :=
  C3_running_window_partition_and_single_write 2 [5, 5, 6, 7] (by norm_num) 2 (by norm_num)

/-- Claim C8, counterexample.  The randomness of the SSR zero-randomization is
the implicit process-global numpy stream, not a generator supplied through
`apply_location`'s interface: two runs with identical inputs but different
ambient stream states produce different outputs ([1/2] versus [1/4] for the
single zero sample), so no property of the call's inputs alone makes repeated
runs reproducible. -/
theorem C8_global_stream_counterexample :
    randomize_zero_values_between_zero_and_threshold [0] 1 (fun _ => 1/2) ≠
      randomize_zero_values_between_zero_and_threshold [0] 1 (fun _ => 1/4) := by
  norm_num [randomize_zero_values_between_zero_and_threshold, uniformDraw, List.range_succ]

/-- Claim C8 (amended): SSR zero-randomization, ISIMIP step-2 imputation and
ISIMIP step-4 threshold randomization all draw from the implicit process-global
numpy stream (`np.random.uniform` / `np.random.random`), not an injectable
generator; outputs are reproducible exactly relative to that global stream —
two runs with identical inputs whose ambient streams agree on the consumed
draws (one per array position for SSR, one per beyond-threshold value in step
4, one per invalid value in step 2) produce identical outputs. -/
theorem C8_randomness_is_global_stream_determinism :
    (∀ (x : List ℚ) (thr : ℚ) (u1 u2 : ℕ → ℚ),
      (∀ j, j < x.length → u1 j = u2 j) →
      randomize_zero_values_between_zero_and_threshold x thr u1 =
        randomize_zero_values_between_zero_and_threshold x thr u2) ∧
    (∀ (lb lt : ℚ) (vals : List ℚ) (u1 u2 : ℕ → ℚ),
      (∀ j, j < (vals.map (fun v => beyond_lower_threshold (some lt) v)).count true →
        u1 j = u2 j) →
      step4_randomize_values_between_lower_threshold_and_bound lb lt vals u1 =
        step4_randomize_values_between_lower_threshold_and_bound lb lt vals u2) ∧
    (∀ (x : List (Option ℚ)) (u1 u2 : ℕ → ℚ),
      (∀ j, j < ((List.range x.length).filter (fun i => (x.getD i none).isNone)).length →
        u1 j = u2 j) →
      step2_impute_values x u1 = step2_impute_values x u2) := by
  refine ⟨?_, ?_, ?_⟩
  · intro x thr u1 u2 h
    unfold randomize_zero_values_between_zero_and_threshold
    apply List.map_congr_left
    intro i hi
    rw [h i (List.mem_range.mp hi)]
  · intro lb lt vals u1 u2 h
    simp only [step4_randomize_values_between_lower_threshold_and_bound]
    have hmap : (List.range ((vals.map (fun v =>
        beyond_lower_threshold (some lt) v)).count true)).map
          (fun i => uniformDraw lb lt (u1 i)) =
        (List.range ((vals.map (fun v => beyond_lower_threshold (some lt) v)).count true)).map
          (fun i => uniformDraw lb lt (u2 i)) := by
      apply List.map_congr_left
      intro i hi
      rw [h i (List.mem_range.mp hi)]
    rw [hmap]
  · intro x u1 u2 h
    simp only [step2_impute_values]
    have hmap : (List.range ((List.range x.length).filter
        (fun i => (x.getD i none).isNone)).length).map u1 =
        (List.range ((List.range x.length).filter
          (fun i => (x.getD i none).isNone)).length).map u2 := by
      apply List.map_congr_left
      intro i hi
      exact h i (List.mem_range.mp hi)
    rw [hmap]

/-- Claim C8, witness: streams that agree on the consumed draws but differ
later give identical outputs at concrete inputs for all three sites. -/
theorem C8_randomness_is_global_stream_determinism_witness :
    randomize_zero_values_between_zero_and_threshold [0, 3] 1 (fun i => i) =
      randomize_zero_values_between_zero_and_threshold [0, 3] 1
        (fun i => if i < 2 then i else 7) ∧
    step4_randomize_values_between_lower_threshold_and_bound 0 (1/2) [0, 3] (fun i => i) =
      step4_randomize_values_between_lower_threshold_and_bound 0 (1/2) [0, 3]
        (fun i => if i < 1 then i else 9) ∧
    step2_impute_values [some 1, none] (fun i => i) =
      step2_impute_values [some 1, none] (fun i => if i < 1 then i else 11) :=
  ⟨C8_randomness_is_global_stream_determinism.1 [0, 3] 1 _ _
      (by
        intro j hj
        have hj2 : j < 2 := by simpa using hj
        rw [if_pos hj2]),
   C8_randomness_is_global_stream_determinism.2.1 0 (1/2) [0, 3] _ _
      (by
        intro j hj
        have hc : (([0, 3] : List ℚ).map (fun v =>
            beyond_lower_threshold (some (1/2)) v)).count true = 1 := by
          norm_num [beyond_lower_threshold, List.count_cons]
        have hj1 : j < 1 := by omega
        rw [if_pos hj1]),
   C8_randomness_is_global_stream_determinism.2.2 [some 1, none] _ _
      (by
        intro j hj
        have hc : ((List.range ([some 1, none] : List (Option ℚ)).length).filter
            (fun i => (([some 1, none] : List (Option ℚ)).getD i none).isNone)).length = 1 := by
          norm_num [List.range_succ]
        have hj1 : j < 1 := by omega
        rw [if_pos hj1])⟩

/-- Reading every position of a list through `range`/`getD` recovers the list. -/
theorem map_getD_range_self : ∀ (l : List ℚ),
    (List.range l.length).map (fun i => l.getD i 0) = l
  | [] => rfl
  | a :: tl => by
    rw [List.length_cons, List.range_succ_eq_map, List.map_cons, List.map_map]
    congr 1
    have hcomp : ((fun i => (a :: tl).getD i 0) ∘ Nat.succ) = (fun i => tl.getD i 0) := by
      funext i
      simp
    rw [hcomp, map_getD_range_self tl]

/-- Mapping `getD` over a permutation of the index range permutes the list. -/
theorem perm_map_getD (p : List ℕ) (m : List ℚ) (h : List.Perm p (List.range m.length)) :
    List.Perm (p.map (fun i => m.getD i 0)) m := by
  have h2 := h.map (fun i => m.getD i 0)
  rw [map_getD_range_self] at h2
  exact h2

/-- `cm_future[argsort(cm_future)]` is a permutation of `cm_future`. -/
theorem step6_cm_future_sorted_perm (l : List ℚ) :
    List.Perm (step6_cm_future_sorted l) l := by
  unfold step6_cm_future_sorted argsortQ argsortBy
  exact perm_map_getD _ _ (List.perm_insertionSort _ _)

/-- The argsort index list has the length of its input list. -/
theorem argsortQ_length (l : List ℚ) : (argsortQ l).length = l.length := by
  unfold argsortQ argsortBy
  rw [(List.perm_insertionSort _ _).length_eq, List.length_range]

/-- `step6_cm_future_sorted` preserves length. -/
theorem step6_cm_future_sorted_length (l : List ℚ) :
    (step6_cm_future_sorted l).length = l.length :=
  (step6_cm_future_sorted_perm l).length_eq

/-- `setFirstTo` preserves length. -/
theorem setFirstTo_length (v : ℚ) : ∀ (k : ℕ) (l : List ℚ),
    (setFirstTo k v l).length = l.length
  | 0, l => by
    cases l <;> rfl
  | k + 1, [] => rfl
  | k + 1, x :: xs => by
    unfold setFirstTo
    rw [List.length_cons, List.length_cons, setFirstTo_length v k xs]

/-- `setLastTo` preserves length. -/
theorem setLastTo_length (k : ℕ) (v : ℚ) (l : List ℚ) :
    (setLastTo k v l).length = l.length := by
  unfold setLastTo
  rw [List.length_reverse, setFirstTo_length, List.length_reverse]

/-- Setting the last zero entries changes nothing. -/
theorem setLastTo_zero (v : ℚ) (l : List ℚ) : setLastTo 0 v l = l := by
  unfold setLastTo
  cases hl : l.reverse with
  | nil =>
    rw [show setFirstTo 0 v [] = [] from rfl, ← hl, List.reverse_reverse]
  | cons a t =>
    rw [show setFirstTo 0 v (a :: t) = a :: t from rfl, ← hl, List.reverse_reverse]

/-- `fitLen` gives its first argument's length. -/
theorem fitLen_length (orig repl : List ℚ) : (fitLen orig repl).length = orig.length := by
  unfold fitLen
  rw [List.length_append, List.length_take, List.length_drop]
  omega

/-- Every entry of the written prefix of `setFirstTo` is the written value. -/
theorem setFirstTo_take (v : ℚ) : ∀ (k : ℕ) (l : List ℚ),
    ∀ w ∈ (setFirstTo k v l).take k, w = v
  | 0, l => by simp
  | k + 1, [] => by simp [setFirstTo]
  | k + 1, x :: xs => by
    intro w hw
    unfold setFirstTo at hw
    rw [List.take_succ_cons] at hw
    rcases List.mem_cons.mp hw with h | h
    · exact h
    · exact setFirstTo_take v k xs w h

/-- Counting `true` over a pointwise-true Bool map gives the length. -/
theorem count_true_map_all (l : List ℚ) (p : ℚ → Bool) (h : ∀ v ∈ l, p v = true) :
    (l.map p).count true = l.length := by
  induction l with
  | nil => rfl
  | cons a t ih =>
    rw [List.map_cons, List.count_cons, ih (fun v hv => h v (List.mem_cons_of_mem a hv))]
    simp [h a (List.mem_cons_self a t)]

/-- Counting `true` over a Bool map is counting the predicate. -/
theorem count_true_map (l : List ℚ) (p : ℚ → Bool) :
    (l.map p).count true = l.countP p := by
  induction l with
  | nil => rfl
  | cons a t ih =>
    rw [List.map_cons, List.count_cons, ih, List.countP_cons]
    cases hpa : p a <;> simp [hpa]

/-- Rounding a natural number cast to ℚ is the identity. -/
theorem pyRound_natCast (k : ℕ) : pyRound (k : ℚ) = k := by
  unfold pyRound
  rw [Int.floor_natCast]
  norm_num

/-- Sorting keeps the length of a list. -/
theorem sortQ_length (l : List ℚ) : (sortQ l).length = l.length :=
  (List.perm_insertionSort _ _).length_eq

/-- In the C6 scenario (lower threshold configured, no upper threshold, every
`obs_hist` and `cm_hist` value beyond the lower threshold) the forced-count
pair of step 6 is exactly (number of `cm_future` values at or below the
threshold, 0): the exceedance frequencies of `obs_hist` and `cm_hist` are both
1, the frequency formula returns `P_cm_future`, and no rescaling triggers. -/
theorem step6_nrs_lower_only (t : ℚ) (obs_hist cm_hist cm_future : List ℚ)
    (h1 : obs_hist ≠ []) (h2 : cm_hist ≠ []) (h3 : cm_future ≠ [])
    (ho : ∀ v ∈ obs_hist, v ≤ t) (hc : ∀ v ∈ cm_hist, v ≤ t) :
    step6_nrs true (some t) none obs_hist cm_hist cm_future =
      ((cm_future.countP (beyond_lower_threshold (some t)) : ℤ), 0) := by
  have hlo : (sortQ obs_hist).length ≠ 0 := by
    rw [sortQ_length]
    simpa using h1
  have hlc : (sortQ cm_hist).length ≠ 0 := by
    rw [sortQ_length]
    simpa using h2
  have hlf : cm_future.length ≠ 0 := by simpa using h3
  have hPo : step6_calculate_percent_values_beyond_threshold
      ((sortQ obs_hist).map (beyond_lower_threshold (some t))) = 1 := by
    unfold step6_calculate_percent_values_beyond_threshold
    rw [count_true_map_all _ _ ?_, List.length_map]
    · exact div_self (by exact_mod_cast hlo)
    · intro v hv
      have hvmem : v ∈ obs_hist := ((List.perm_insertionSort _ _).mem_iff).mp hv
      simpa [beyond_lower_threshold] using ho v hvmem
  have hPc : step6_calculate_percent_values_beyond_threshold
      ((sortQ cm_hist).map (beyond_lower_threshold (some t))) = 1 := by
    unfold step6_calculate_percent_values_beyond_threshold
    rw [count_true_map_all _ _ ?_, List.length_map]
    · exact div_self (by exact_mod_cast hlc)
    · intro v hv
      have hvmem : v ∈ cm_hist := ((List.perm_insertionSort _ _).mem_iff).mp hv
      simpa [beyond_lower_threshold] using hc v hvmem
  have hPf : step6_calculate_percent_values_beyond_threshold
      ((step6_cm_future_sorted cm_future).map (beyond_lower_threshold (some t))) =
      (cm_future.countP (beyond_lower_threshold (some t)) : ℚ) / cm_future.length := by
    unfold step6_calculate_percent_values_beyond_threshold
    rw [count_true_map, List.length_map, step6_cm_future_sorted_length,
      (step6_cm_future_sorted_perm cm_future).countP_eq]
  have hnr : step6_get_nr_of_entries_to_set_to_bound true
      ((sortQ obs_hist).map (beyond_lower_threshold (some t)))
      ((sortQ cm_hist).map (beyond_lower_threshold (some t)))
      ((step6_cm_future_sorted cm_future).map (beyond_lower_threshold (some t))) =
      (cm_future.countP (beyond_lower_threshold (some t)) : ℤ) := by
    unfold step6_get_nr_of_entries_to_set_to_bound
    rw [if_pos rfl, hPo, hPc, hPf]
    unfold step6_get_P_obs_future
    rw [if_pos (by norm_num [npIsClose])]
    rw [List.length_map, step6_cm_future_sorted_length]
    have hmul : (cm_future.length : ℚ) *
        ((cm_future.countP (beyond_lower_threshold (some t)) : ℚ) / cm_future.length) =
        (cm_future.countP (beyond_lower_threshold (some t)) : ℚ) := by
      field_simp
    simp only [hmul]
    exact pyRound_natCast _
  have hle : cm_future.countP (beyond_lower_threshold (some t)) ≤ cm_future.length :=
    List.countP_le_length _
  simp only [step6_nrs, Option.isSome_some, Option.isSome_none, if_true, if_false,
    Bool.false_eq_true, hnr]
  rw [if_neg ?_]
  rw [step6_cm_future_sorted_length]
  omega

/-- Overwriting an in-range slice preserves length. -/
theorem setSlice_length (l : List ℚ) (i : ℕ) (repl : List ℚ)
    (h : i + repl.length ≤ l.length) : (setSlice l i repl).length = l.length := by
  unfold setSlice
  rw [List.length_append, List.length_append, List.length_take, List.length_drop]
  omega

/-- The sorted mapped vector of step 6 has the length of `cm_future`. -/
theorem step6_sorted_mapped_length (adjust : Bool) (lt ut : Option ℚ) (lb ub : ℚ)
    (adjustFn : List ℚ → List ℚ → List ℚ → List ℚ → List ℚ → List ℚ)
    (obs_hist obs_future cm_hist cm_future : List ℚ) :
    (step6_sorted_mapped adjust lt ut lb ub adjustFn
      obs_hist obs_future cm_hist cm_future).length = cm_future.length := by
  have hwb : (setLastTo (step6_nrs adjust lt ut obs_hist cm_hist cm_future).2.toNat ub
      (setFirstTo (step6_nrs adjust lt ut obs_hist cm_hist cm_future).1.toNat lb
        (step6_cm_future_sorted cm_future))).length = cm_future.length := by
    rw [setLastTo_length, setFirstTo_length, step6_cm_future_sorted_length]
  simp only [step6_sorted_mapped]
  split
  · rw [hwb]
  · rw [setSlice_length _ _ _ ?_, hwb]
    rw [fitLen_length, List.length_take, List.length_drop, hwb,
      step6_cm_future_sorted_length]
    omega

/-- Taking at most the untouched prefix of an overwritten slice reads the
original list. -/
theorem take_setSlice_high (l : List ℚ) (c : ℕ) (repl : List ℚ) (hc : c ≤ l.length) :
    (setSlice l c repl).take c = l.take c := by
  unfold setSlice
  rw [List.append_assoc, List.take_append_eq_append_take, List.take_take, min_self,
    List.length_take, min_eq_left hc, Nat.sub_self, List.take_zero, List.append_nil]

/-- Claim C6 (confirmed): with frequency adjustment on, a configured lower
threshold and no upper one, and every `obs_hist` and `cm_hist` value beyond
(at or below) the lower threshold, `P_obs_hist = P_cm_hist = 1`, so the number
of sorted `cm_future` entries forced to the lower bound is
`round(size(cm_future) * P_obs_future)` with `P_obs_future = P_cm_future`;
every forced entry of the sorted mapped vector is exactly `lower_bound`, and
the array returned by step 6 is that vector reinserted in the original order
(a permutation of it), for any between-thresholds adjustment. -/
theorem C6_step6_lower_bound_forcing (t lb ub : ℚ)
    (adjustFn : List ℚ → List ℚ → List ℚ → List ℚ → List ℚ → List ℚ)
    (obs_hist obs_future cm_hist cm_future : List ℚ)
    (h1 : obs_hist ≠ []) (h2 : cm_hist ≠ []) (h3 : cm_future ≠ [])
    (ho : ∀ v ∈ obs_hist, v ≤ t) (hc : ∀ v ∈ cm_hist, v ≤ t) :
    (step6_nrs true (some t) none obs_hist cm_hist cm_future).1 =
      pyRound ((cm_future.length : ℚ) *
        ((cm_future.countP (beyond_lower_threshold (some t)) : ℚ) / cm_future.length)) ∧
    (∀ v ∈ (step6_sorted_mapped true (some t) none lb ub adjustFn obs_hist obs_future
        cm_hist cm_future).take
        (step6_nrs true (some t) none obs_hist cm_hist cm_future).1.toNat,
      v = lb) ∧
    List.Perm
      (step6 true (some t) none lb ub adjustFn obs_hist obs_future cm_hist cm_future)
      (step6_sorted_mapped true (some t) none lb ub adjustFn obs_hist obs_future
        cm_hist cm_future) := by
  have hlf : cm_future.length ≠ 0 := by simpa using h3
  have hnrs := step6_nrs_lower_only t obs_hist cm_hist cm_future h1 h2 h3 ho hc
  have hcle : cm_future.countP (beyond_lower_threshold (some t)) ≤ cm_future.length :=
    List.countP_le_length _
  have hmul : (cm_future.length : ℚ) *
      ((cm_future.countP (beyond_lower_threshold (some t)) : ℚ) / cm_future.length) =
      (cm_future.countP (beyond_lower_threshold (some t)) : ℚ) := by
    field_simp
  refine ⟨?_, ?_, ?_⟩
  · rw [hnrs, hmul, pyRound_natCast]
  · intro v hv
    rw [hnrs] at hv
    simp only [step6_sorted_mapped, hnrs, Int.toNat_natCast, Int.toNat_zero,
      setLastTo_zero] at hv
    set c := cm_future.countP (beyond_lower_threshold (some t)) with hcdef
    have hsl : (step6_cm_future_sorted cm_future).length = cm_future.length :=
      step6_cm_future_sorted_length cm_future
    have hwb : (setFirstTo c lb (step6_cm_future_sorted cm_future)).length =
        cm_future.length := by
      rw [setFirstTo_length, hsl]
    have hmin : min c (step6_cm_future_sorted cm_future).length = c := by
      rw [hsl]
      exact min_eq_left hcle
    rw [hmin] at hv
    rw [apply_ite (List.take c)] at hv
    rw [take_setSlice_high _ _ _ (by rw [hwb]; exact hcle)] at hv
    rw [ite_self] at hv
    exact setFirstTo_take lb c _ v hv
  · have hlen : (step6_sorted_mapped true (some t) none lb ub adjustFn obs_hist obs_future
        cm_hist cm_future).length = cm_future.length :=
      step6_sorted_mapped_length _ _ _ _ _ _ _ _ _ _
    unfold step6
    apply perm_map_getD
    rw [hlen]
    unfold argsortN argsortBy
    rw [← argsortQ_length cm_future]
    exact List.perm_insertionSort _ _

/-- Claim C6, witness: threshold 1, `obs_hist = [1/2]`, `cm_hist = [1]`
(all beyond the threshold), `cm_future = [2, 1/2]`. -/
theorem C6_step6_lower_bound_forcing_witness :
    (step6_nrs true (some 1) none [1/2] [1] [2, 1/2]).1 =
      pyRound ((([2, 1/2] : List ℚ).length : ℚ) *
        ((([2, 1/2] : List ℚ).countP (beyond_lower_threshold (some 1)) : ℚ) /
          ([2, 1/2] : List ℚ).length)) ∧
    (∀ v ∈ (step6_sorted_mapped true (some 1) none 0 5 (fun _ _ _ d _ => d)
        [1/2] [1/2] [1] [2, 1/2]).take
        (step6_nrs true (some 1) none [1/2] [1] [2, 1/2]).1.toNat,
      v = 0) ∧
    List.Perm
      (step6 true (some 1) none 0 5 (fun _ _ _ d _ => d) [1/2] [1/2] [1] [2, 1/2])
      (step6_sorted_mapped true (some 1) none 0 5 (fun _ _ _ d _ => d)
        [1/2] [1/2] [1] [2, 1/2]) :=
  C6_step6_lower_bound_forcing 1 0 5 (fun _ _ _ d _ => d) [1/2] [1/2] [1] [2, 1/2]
    (by norm_num) (by norm_num) (by simp)
    (by intro v hv; norm_num at hv; norm_num [hv])
    (by intro v hv; norm_num at hv; norm_num [hv])
